import Mathlib

/-!
Verification of the profile lifecycle and shared-configuration linking
subsystem of the cc-profiles repository, as a shallow embedding.

The embedding models the filesystem as an association list from an
algebraic path type to entries (file with content, directory, or
symbolic link).  Node primitives are modelled as follows:
existsSync follows symbolic links (a broken link counts as absent),
lstatSync inspects the raw entry, fs.stat succeeds exactly when the
path resolves, fs.symlink fails when the raw target path is occupied,
fs.rm with the recursive option removes a path and its children
without following links, and fs.unlink removes a single entry.
String lengths and lowercasing are the Lean codepoint/ASCII versions
of the JavaScript ones; on the alphabets involved they agree.
-/

namespace CCProfiles

/-! ## Validator (src/utils/validation.ts) -/

def MAX_PROFILE_NAME_LENGTH : Nat := 32

def RESERVED_NAMES : List String := ["claude", "default", "main", "primary"]

def isLowerAlpha (c : Char) : Bool := decide ('a' ≤ c) && decide (c ≤ 'z')

def isNameChar (c : Char) : Bool :=
  isLowerAlpha c || (decide ('0' ≤ c) && decide (c ≤ '9')) || decide (c = '-')

/-- The regex test for PROFILE_NAME_PATTERN, which reads caret, a-z
class, then a-z0-9 hyphen class starred, then dollar. -/
def profileNameOk (name : String) : Bool :=
  match name.data with
  | [] => false
  | c :: rest => isLowerAlpha c && rest.all isNameChar

/-- The regex test used by getProfileNameError for its third check:
the string starts with a lowercase ASCII letter. -/
def startsLower (name : String) : Bool :=
  match name.data with
  | [] => false
  | c :: _ => isLowerAlpha c

/-- The toLowerCase call, modelled per character (ASCII range; the
reserved words are all ASCII). -/
def toLowerAscii (s : String) : String := ⟨s.data.map Char.toLower⟩

def isReservedName (name : String) : Bool :=
  RESERVED_NAMES.contains (toLowerAscii name)

def isValidProfileName (name : String) : Bool :=
  if name.length = 0 then false
  else if MAX_PROFILE_NAME_LENGTH < name.length then false
  else if !(profileNameOk name) then false
  else if isReservedName name then false
  else true

def getProfileNameError (name : String) : Option String :=
  if name.length = 0 then some "Profile name is required"
  else if MAX_PROFILE_NAME_LENGTH < name.length then some "Name must be 32 characters or less"
  else if !(startsLower name) then some "Name must start with a lowercase letter"
  else if !(profileNameOk name) then some "Use only lowercase letters, numbers, and hyphens"
  else if isReservedName name then some ("\"" ++ name ++ "\" is a reserved name")
  else none

/-! ## Paths and filesystem state

The subsystem only ever touches home-relative paths of six shapes:
the shared configuration root (tilde slash .claude), an entry inside
it (tilde slash .claude slash name), a profile directory (tilde slash
.claude-id), an entry inside a profile directory, and a profile
credentials file (tilde slash .claude-id.json).  These path shapes
are pairwise distinct strings, which the algebraic type makes
definitional.  The metadata file (tilde slash .cc-profiles.json) is
kept as a separate component of the registry state below. -/

inductive Path
  | mainConfig
  | shared (name : String)
  | profileDir (profile : String)
  | profileItem (profile : String) (item : String)
  | credFile (profile : String)
deriving DecidableEq

inductive Entry
  | fileE (content : String)
  | dirE
  | symlinkE (target : Path)
deriving DecidableEq

def isSymEntry : Entry → Bool
  | .symlinkE _ => true
  | _ => false

abbrev FS := List (Path × Entry)

def lookupFS : FS → Path → Option Entry
  | [], _ => none
  | (q, e) :: rest, p => if q = p then some e else lookupFS rest p

def erasePath (fs : FS) (p : Path) : FS := fs.filter (fun en => decide (en.1 ≠ p))

def insertPath (fs : FS) (p : Path) (e : Entry) : FS := (p, e) :: erasePath fs p

/-- Directory containment for the modelled path shapes: the shared
root contains the shared entries, and a profile directory contains
the entries inside it. -/
def underPath : Path → Path → Bool
  | .mainConfig, .shared _ => true
  | .profileDir p, .profileItem q _ => decide (p = q)
  | _, _ => false

/-- fs.rm with the recursive and force options: removes the path and
everything under it, without following symbolic links. -/
def rmRec (fs : FS) (p : Path) : FS :=
  fs.filter (fun en => decide (en.1 ≠ p) && !(underPath p en.1))

/-- Symlink-following resolution with a fuel bound (the OS bounds link
chains; 40 is the conventional depth). -/
def resolveEntry : Nat → FS → Path → Option Entry
  | 0, _, _ => none
  | fuel + 1, fs, p =>
    match lookupFS fs p with
    | some (.symlinkE t) => resolveEntry fuel fs t
    | o => o

/-- existsSync: true when the path resolves through links to a real
entry, so a broken symbolic link counts as absent. -/
def existsSyncB (fs : FS) (p : Path) : Bool := (resolveEntry 40 fs p).isSome

/-- lstatSync(p).isSymbolicLink(): raw inspection, no following. -/
def isSymlinkRaw (fs : FS) (p : Path) : Bool :=
  match lookupFS fs p with
  | some (.symlinkE _) => true
  | _ => false

/-! ## Link Manager (src/core/symlinks.ts) -/

inductive ItemType
  | file
  | directory
deriving DecidableEq

structure SharedItem where
  name : String
  type : ItemType
  required : Bool
deriving DecidableEq

/-- CLAUDE_PATHS.sharedItems from src/utils/paths.ts. -/
def sharedItems : List SharedItem :=
  [⟨"settings.json", .file, true⟩,
   ⟨"stats-cache.json", .file, false⟩,
   ⟨"CLAUDE.md", .file, false⟩,
   ⟨"agents", .directory, false⟩,
   ⟨"commands", .directory, false⟩,
   ⟨"plugins", .directory, false⟩,
   ⟨"skills", .directory, false⟩]

structure SymlinkTarget where
  source : Path
  target : Path
  type : ItemType
  required : Bool
deriving DecidableEq

inductive LinkError
  | requiredMissing (source : Path)
  | targetOccupied (target : Path)
deriving DecidableEq

/-- fs.symlink(source, target): fails when the raw target path is
already occupied (even by a broken link), otherwise records the link. -/
def symlinkFS (fs : FS) (source target : Path) : Except LinkError FS :=
  match lookupFS fs target with
  | some _ => .error (.targetOccupied target)
  | none => .ok (insertPath fs target (.symlinkE source))

/-- One iteration of the createSymlinks loop for one shared item:
skip a missing optional source, fail on a missing required source,
skip a target that exists and is a link, replace a target that exists
and is not a link, otherwise create the link and return its
descriptor. -/
def linkStep (p : String) (it : SharedItem) (fs : FS) :
    Except LinkError (Option SymlinkTarget) × FS :=
  match existsSyncB fs (Path.shared it.name),
        existsSyncB fs (Path.profileItem p it.name),
        isSymlinkRaw fs (Path.profileItem p it.name) with
  | false, _, _ =>
    if it.required then (.error (.requiredMissing (Path.shared it.name)), fs)
    else (.ok none, fs)
  | true, true, true => (.ok none, fs)
  | true, true, false =>
    let fs1 := rmRec fs (Path.profileItem p it.name)
    match symlinkFS fs1 (Path.shared it.name) (Path.profileItem p it.name) with
    | .error e => (.error e, fs1)
    | .ok fs2 =>
      (.ok (some { source := Path.shared it.name,
                   target := Path.profileItem p it.name,
                   type := it.type, required := it.required }), fs2)
  | true, false, _ =>
    match symlinkFS fs (Path.shared it.name) (Path.profileItem p it.name) with
    | .error e => (.error e, fs)
    | .ok fs2 =>
      (.ok (some { source := Path.shared it.name,
                   target := Path.profileItem p it.name,
                   type := it.type, required := it.required }), fs2)

/-- The createSymlinks loop over the shared item list, accumulating
the descriptors of the links actually created (skipped items are not
pushed).  The filesystem reached so far is returned even on error,
mirroring the partial mutation a thrown exception leaves behind. -/
def createSymlinksGo (p : String) :
    List SharedItem → FS → Except LinkError (List SymlinkTarget) × FS
  | [], fs => (.ok [], fs)
  | it :: rest, fs =>
    match linkStep p it fs with
    | (.error e, fs1) => (.error e, fs1)
    | (.ok none, fs1) => createSymlinksGo p rest fs1
    | (.ok (some d), fs1) =>
      match createSymlinksGo p rest fs1 with
      | (.error e, fsF) => (.error e, fsF)
      | (.ok ds, fsF) => (.ok (d :: ds), fsF)

def createSymlinks (p : String) (fs : FS) :
    Except LinkError (List SymlinkTarget) × FS :=
  createSymlinksGo p sharedItems fs

/-- The removeSymlinks loop: unlink a target only when it exists
(following links) and is itself a link; everything else is left
untouched. -/
def removeSymlinksGo (p : String) : List SharedItem → FS → FS
  | [], fs => fs
  | it :: rest, fs =>
    let target := Path.profileItem p it.name
    let fs1 :=
      if existsSyncB fs target && isSymlinkRaw fs target then erasePath fs target
      else fs
    removeSymlinksGo p rest fs1

def removeSymlinks (p : String) (fs : FS) : FS := removeSymlinksGo p sharedItems fs

/-- One row of the getSymlinkStatus report.  The field named exists in
the source is called existsFlag here because exists is a Lean keyword. -/
structure LinkStatus where
  name : String
  existsFlag : Bool
  isSymlink : Bool
  targetExists : Bool
deriving DecidableEq

/-- Loop body of getSymlinkStatus: existsSync, then lstat when it
exists, then fs.stat (which succeeds exactly when the path resolves)
when it is a link. -/
def symlinkStatusFor (p : String) (fs : FS) (it : SharedItem) : LinkStatus :=
  let target := Path.profileItem p it.name
  if existsSyncB fs target then
    if isSymlinkRaw fs target then
      ⟨it.name, true, true, existsSyncB fs target⟩
    else ⟨it.name, true, false, false⟩
  else ⟨it.name, false, false, false⟩

def getSymlinkStatus (p : String) (fs : FS) : List LinkStatus :=
  sharedItems.map (symlinkStatusFor p fs)

/-- Well-formedness of a filesystem for profile p, used by the
idempotence theorem: the entries of the shared configuration root are
real files or directories (the Claude installation does not populate
its own config directory with links), and any link already sitting at
one of the profile p item paths points at the corresponding shared
entry. -/
def entryWF (p : String) (en : Path × Entry) : Bool :=
  match en.1, en.2 with
  | .shared _, .symlinkE _ => false
  | .profileItem q n, .symlinkE t => !(decide (q = p)) || decide (t = Path.shared n)
  | _, _ => true

def wfFS (p : String) (fs : FS) : Bool := fs.all (entryWF p)

/-- After createSymlinks has processed an item, the item is settled:
either its source is absent and it is optional, or its source is a
real entry and its target is a link to that source. -/
def settled (p : String) (it : SharedItem) (fs : FS) : Prop :=
  (lookupFS fs (Path.shared it.name) = none ∧ it.required = false)
  ∨ (∃ e, lookupFS fs (Path.shared it.name) = some e ∧ isSymEntry e = false
      ∧ lookupFS fs (Path.profileItem p it.name) = some (.symlinkE (Path.shared it.name)))

/-- Concrete starting filesystem for the claim C3 witness: a shared
root holding the required settings.json and a freshly created profile
directory. -/
def fsW0 : FS :=
  [(Path.mainConfig, Entry.dirE),
   (Path.shared "settings.json", Entry.fileE "shared settings"),
   (Path.profileDir "work", Entry.dirE)]

def dW : SymlinkTarget :=
  ⟨Path.shared "settings.json", Path.profileItem "work" "settings.json",
   ItemType.file, true⟩

def fsW1 : FS :=
  (Path.profileItem "work" "settings.json",
   Entry.symlinkE (Path.shared "settings.json")) :: fsW0

/-! ## Profile Registry (src/core/profile.ts)

The registry state couples the filesystem with the metadata document
(the .cc-profiles.json file); the configDoc component is none when
that file is missing or unreadable, matching what readJson reports to
loadProfilesConfig.  A separate JSON-level model of the store
accessor appears further below for the claims about malformed
content. -/

structure ProfileMetadata where
  name : String
  createdAt : Nat
  shellAlias : String
deriving DecidableEq

structure ProfileConfig where
  profiles : List (String × ProfileMetadata)
  version : String
deriving DecidableEq

structure RegistryState where
  fs : FS
  configDoc : Option ProfileConfig
deriving DecidableEq

structure Profile where
  name : String
  path : Path
  configPath : Path
  credentialsPath : Path
  isAuthenticated : Bool
  createdAt : Nat
deriving DecidableEq

def emptyProfileConfig : ProfileConfig := ⟨[], "1.0.0"⟩

/-- loadProfilesConfig: the parsed document, or the fresh empty one
when the file is missing or unreadable. -/
def loadProfilesConfig (s : RegistryState) : ProfileConfig :=
  s.configDoc.getD emptyProfileConfig

/-- Object key assignment: replace the value in place when the key is
present, append at the end otherwise (JavaScript enumeration order). -/
def setAssoc : List (String × ProfileMetadata) → String → ProfileMetadata →
    List (String × ProfileMetadata)
  | [], n, md => [(n, md)]
  | (k, v) :: rest, n, md =>
    if k = n then (k, md) :: rest else (k, v) :: setAssoc rest n md

/-- fs.mkdir with the recursive option: no-op when the directory is
already there. -/
def mkdirp (fs : FS) (p : Path) : FS :=
  match lookupFS fs p with
  | none => insertPath fs p Entry.dirE
  | some _ => fs

inductive CreateError
  | invalidName
  | alreadyExists
  | baseNotConfigured
  | linkFailed (e : LinkError)
deriving DecidableEq

/-- createProfile: validate, check the private directory, check the
shared root, make the directory, create the links (a failure there
propagates and leaves the directory behind), save the metadata entry
and return the Profile view.  The two Date constructions in the
source are modelled by the single instant now. -/
def createProfile (name : String) (now : Nat) (s : RegistryState) :
    Except CreateError Profile × RegistryState :=
  if !(isValidProfileName name) then (.error .invalidName, s)
  else if existsSyncB s.fs (Path.profileDir name) then (.error .alreadyExists, s)
  else if !(existsSyncB s.fs Path.mainConfig) then (.error .baseNotConfigured, s)
  else
    let fs1 := mkdirp s.fs (Path.profileDir name)
    match createSymlinks name fs1 with
    | (.error e, fs2) => (.error (.linkFailed e), { s with fs := fs2 })
    | (.ok _, fs2) =>
      let c := loadProfilesConfig { s with fs := fs2 }
      let c2 : ProfileConfig :=
        { c with profiles := setAssoc c.profiles name ⟨name, now, name⟩ }
      (.ok { name := name, path := Path.profileDir name,
             configPath := Path.profileDir name,
             credentialsPath := Path.credFile name,
             isAuthenticated := existsSyncB fs2 (Path.credFile name),
             createdAt := now },
       { fs := fs2, configDoc := some c2 })

/-- The Profile view listProfiles builds for one metadata entry. -/
def mkProfileView (s : RegistryState) (name : String) (md : ProfileMetadata) : Profile :=
  { name := name, path := Path.profileDir name,
    configPath := Path.profileDir name,
    credentialsPath := Path.credFile name,
    isAuthenticated := existsSyncB s.fs (Path.credFile name),
    createdAt := md.createdAt }

/-- Comparator of the sort call in listProfiles: newest creation
timestamp first. -/
def newestFirst (a b : Profile) : Prop := b.createdAt ≤ a.createdAt

instance instDecidableNewestFirst : DecidableRel newestFirst :=
  fun a b => Nat.decLe b.createdAt a.createdAt

/-- listProfiles: read the document, keep the entries whose private
directory still exists, build the views, sort newest first.  The
returned state is the input state: the function performs no write. -/
def listProfiles (s : RegistryState) : List Profile × RegistryState :=
  let config := loadProfilesConfig s
  let profiles := config.profiles.filterMap (fun en =>
    if existsSyncB s.fs (Path.profileDir en.1) then some (mkProfileView s en.1 en.2)
    else none)
  (profiles.insertionSort newestFirst, s)

inductive RemoveError
  | notFound
deriving DecidableEq

/-- removeProfile: require the private directory, detach the links,
recursively delete the private directory, delete the credentials file
if present, and drop the metadata entry. -/
def removeProfile (name : String) (s : RegistryState) :
    Except RemoveError Unit × RegistryState :=
  if !(existsSyncB s.fs (Path.profileDir name)) then (.error .notFound, s)
  else
    let fs1 := removeSymlinks name s.fs
    let fs2 := rmRec fs1 (Path.profileDir name)
    let fs3 :=
      if existsSyncB fs2 (Path.credFile name) then erasePath fs2 (Path.credFile name)
      else fs2
    let c := loadProfilesConfig s
    let c2 : ProfileConfig :=
      { c with profiles := c.profiles.filter (fun en => decide (en.1 ≠ name)) }
    (.ok (), { fs := fs3, configDoc := some c2 })

/-- Concrete filesystem for the claim C4 witness: a local real file
sits at a link target path. -/
def fsC4 : FS := [(Path.profileItem "work" "settings.json", Entry.fileE "local")]

/-- Concrete registry state for the claim C4 witness. -/
def sC4 : RegistryState := ⟨fsC4, none⟩

/-- Concrete filesystem for the claim C10 witness: a broken link (the
shared referent is absent) at the settings.json target. -/
def fsC10 : FS :=
  [(Path.profileItem "work" "settings.json",
    Entry.symlinkE (Path.shared "settings.json"))]

/-- The status row reported for that broken link. -/
def stC10 : LinkStatus := ⟨"settings.json", false, false, false⟩

/-- Concrete registry state for the claim C1 witness: the shared root
exists but holds no settings.json; no metadata file yet. -/
def sC1 : RegistryState := ⟨[(Path.mainConfig, Entry.dirE)], none⟩

/-- Concrete registry state for the claim C2 witness: two registered
profiles, the ghost one with its private directory deleted
out-of-band. -/
def sC2 : RegistryState :=
  ⟨[(Path.profileDir "live", Entry.dirE)],
   some ⟨[("ghost", ⟨"ghost", 3, "ghost"⟩), ("live", ⟨"live", 5, "live"⟩)], "1.0.0"⟩⟩

/-- Concrete registry state for the claim C9 counterexample: the
profile does not exist, but an orphaned credentials file for its
identifier does. -/
def sC9 : RegistryState :=
  ⟨[(Path.mainConfig, Entry.dirE),
    (Path.shared "settings.json", Entry.fileE "x"),
    (Path.credFile "work", Entry.fileE "token")], none⟩

/-- The Profile view the claim C9 counterexample run returns: its
authenticated flag is true. -/
def profC9 : Profile :=
  ⟨"work", Path.profileDir "work", Path.profileDir "work",
   Path.credFile "work", true, 5⟩

/-- Concrete registry state for the claim C9 witness: no credentials
file anywhere. -/
def sC9w : RegistryState :=
  ⟨[(Path.mainConfig, Entry.dirE),
    (Path.shared "settings.json", Entry.fileE "x")], none⟩

/-- The Profile view the claim C9 witness run returns. -/
def profC9w : Profile :=
  ⟨"work", Path.profileDir "work", Path.profileDir "work",
   Path.credFile "work", false, 7⟩

/-- The registry state after the claim C9 witness run. -/
def s2C9w : RegistryState :=
  ⟨[(Path.profileItem "work" "settings.json",
     Entry.symlinkE (Path.shared "settings.json")),
    (Path.profileDir "work", Entry.dirE),
    (Path.mainConfig, Entry.dirE),
    (Path.shared "settings.json", Entry.fileE "x")],
   some ⟨[("work", ⟨"work", 7, "work"⟩)], "1.0.0"⟩⟩

/-! ## Persistent Store Accessor at JSON granularity
(src/utils/fs.ts readJson and the loadProfilesConfig fallback)

readJson parses whatever text the file holds and returns the parsed
value unvalidated (the cast in the source checks nothing); it yields
null only when reading or parsing throws.  loadProfilesConfig then
replaces only a falsy result with the fresh empty document.  To state
what this means for arbitrary file contents, the file state is
modelled as missing, unparseable, or parsed into a JSON value. -/

inductive JsonVal
  | jnull
  | jbool (b : Bool)
  | jnum (n : Int)
  | jstr (s : String)
  | jarr (elems : List JsonVal)
  | jobj (fields : List (String × JsonVal))

inductive MetadataFileState
  | missing
  | unparseable
  | parsed (v : JsonVal)

/-- readJson: the parsed value, or none when reading or parsing
throws. -/
def readJson : MetadataFileState → Option JsonVal
  | .parsed v => some v
  | _ => none

/-- JavaScript truthiness of a parsed JSON value. -/
def truthyJson : JsonVal → Bool
  | .jnull => false
  | .jbool b => b
  | .jnum n => decide (n ≠ 0)
  | .jstr s => decide (s ≠ "")
  | .jarr _ => true
  | .jobj _ => true

/-- The fresh empty document of loadProfilesConfig. -/
def emptyMetadataDoc : JsonVal :=
  .jobj [("profiles", .jobj []), ("version", .jstr "1.0.0")]

/-- loadProfilesConfig at JSON granularity: the readJson result when
it is truthy, the fresh empty document otherwise. -/
def loadProfilesConfigJson (f : MetadataFileState) : JsonVal :=
  match readJson f with
  | some v => if truthyJson v then v else emptyMetadataDoc
  | none => emptyMetadataDoc

def isObjJson : JsonVal → Bool
  | .jobj _ => true
  | _ => false

/-- Whether a document carries a profiles mapping: an object with a
profiles field holding an object. -/
def hasProfilesMapping : JsonVal → Bool
  | .jobj fields => fields.any (fun en => decide (en.1 = "profiles") && isObjJson en.2)
  | _ => false

/-! ## Launcher Generator (src/core/shell.ts)

The artifact and the shell startup file are modelled by their
contents (an Option String, none when the file is absent).  The
generation timestamp is a string parameter.  Literal braces inside
the templates are written with the x7b and x7d escapes.  The
regenerateAliasesFile templates in the source are textually identical
to generateProfileFunction, so the model shares the definition. -/

inductive ShellType
  | zsh
  | bash
  | fish
  | unknown
deriving DecidableEq

/-- String prefix test at character-list level (needle first). -/
def dataStartsWith : List Char → List Char → Bool
  | [], _ => true
  | _ :: _, [] => false
  | a :: as, b :: bs => decide (a = b) && dataStartsWith as bs

/-- Substring test at character-list level, as String.prototype
includes decides it. -/
def dataContains (needle : List Char) : List Char → Bool
  | [] => needle.isEmpty
  | c :: rest => dataStartsWith needle (c :: rest) || dataContains needle rest

def includesStr (hay needle : String) : Bool := dataContains needle.data hay.data

/-- String.prototype.trimEnd, over the ASCII whitespace the model
uses (space, tab, carriage return, newline). -/
def trimEndStr (s : String) : String :=
  ⟨(s.data.reverse.dropWhile Char.isWhitespace).reverse⟩

def INTEGRATION_MARKER : String := "# cc-profiles shell integration"

def integrationLine : String :=
  INTEGRATION_MARKER
    ++ "\n[ -f ~/.cc-profiles-aliases.sh ] && source ~/.cc-profiles-aliases.sh"

/-- setupShellIntegration acting on the startup-file content: fish
needs no integration; otherwise no-op when the marker is present,
else write the trimmed prior content, a blank separator and the
marked block. -/
def setupShellIntegration (shell : ShellType) (rc : Option String) : Option String :=
  match shell with
  | .fish => rc
  | _ =>
    if includesStr (rc.getD "") INTEGRATION_MARKER then rc
    else some (trimEndStr (rc.getD "") ++ "\n\n" ++ integrationLine ++ "\n")

/-- Array.prototype.join with a separator. -/
def joinSep (sep : String) : List String → String
  | [] => ""
  | [x] => x
  | x :: xs => x ++ sep ++ joinSep sep xs

/-- generateProfileFunction: one invocation block, fish or posix
syntax. -/
def generateProfileFunction (shell : ShellType) (name : String) : String :=
  match shell with
  | .fish =>
    "function " ++ name
      ++ "\n    set -x CLAUDE_CONFIG_DIR \"$HOME/.claude-" ++ name
      ++ "\"\n    command claude $argv\nend"
  | _ =>
    name ++ "() \x7b\n    CLAUDE_CONFIG_DIR=\"$HOME/.claude-" ++ name
      ++ "\" command claude \"$@\"\n\x7d"

def autoGenLine : String := "# Auto-generated by cc-profiles - DO NOT EDIT MANUALLY"

def regenNote : String := "# This file is regenerated when profiles are created/removed"

/-- The shebang line, present only in the posix template. -/
def headerBang (shell : ShellType) : String :=
  match shell with
  | .fish => ""
  | _ => "#!/bin/bash\n"

def aliasesHeader (shell : ShellType) (ts : String) : String :=
  headerBang shell ++ autoGenLine ++ "\n" ++ regenNote ++ "\n# Generated: "
    ++ ts ++ "\n\n"

/-- One enumeration line of the listing function (same text in both
template families). -/
def echoLine (name : String) : String := "    echo \"  " ++ name ++ "\""

/-- Text of the listing block before the cc-list function name. -/
def listIntro1 (shell : ShellType) : String :=
  match shell with
  | .fish => "\nfunction "
  | _ => "\n# List all available profiles\n"

/-- Text of the listing block between the function name and the
enumeration lines. -/
def listIntro2 (shell : ShellType) : String :=
  match shell with
  | .fish => "\n    echo \"Available Claude Code profiles:\"\n"
  | _ => "() \x7b\n    echo \"Available Claude Code profiles:\"\n"

/-- Text of the listing block after the enumeration lines. -/
def listOutro (shell : ShellType) : String :=
  match shell with
  | .fish =>
    "\n    echo \"\"\n    echo \"Run any profile name as a command to start Claude with that profile.\"\nend"
  | _ =>
    "\n    echo \"\"\n    echo \"Run any profile name as a command to start Claude with that profile.\"\n\x7d"

def aliasesListBlock (shell : ShellType) (names : List String) : String :=
  listIntro1 shell ++ "cc-list" ++ listIntro2 shell
    ++ joinSep "\n" (names.map echoLine) ++ listOutro shell

/-- The full artifact content for a non-empty identifier list. -/
def aliasesFileContent (shell : ShellType) (ts : String) (names : List String) : String :=
  aliasesHeader shell ts
    ++ joinSep "\n\n" (names.map (generateProfileFunction shell))
    ++ "\n" ++ aliasesListBlock shell names ++ "\n"

/-- regenerateAliasesFile acting on the artifact content: with no
profiles the artifact is deleted if present and nothing is written;
otherwise the freshly rendered content fully replaces whatever was
there. -/
def regenerateAliasesFile (shell : ShellType) (ts : String)
    (profileNames : List String) (artifact : Option String) : Option String :=
  if profileNames.length = 0 then none
  else some (aliasesFileContent shell ts profileNames)

/-- a occurs inside b. -/
def InfixOfL (a b : List Char) : Prop := ∃ s t, b = s ++ a ++ t

/-- a is an initial segment of b. -/
def PrefixOfL (a b : List Char) : Prop := ∃ t, b = a ++ t

/-- The given blocks occur inside s, pairwise disjointly and in the
given order. -/
def appearsInOrderL : List (List Char) → List Char → Prop
  | [], _ => True
  | b :: bs, s => ∃ pre post, s = pre ++ b ++ post ∧ appearsInOrderL bs post

/-! ## Theorems -/

theorem lookupFS_filter_keyTrue {f : Path × Entry → Bool} {q : Path}
    (h : ∀ e : Entry, f (q, e) = true) :
    ∀ fs : FS, lookupFS (fs.filter f) q = lookupFS fs q := by
  intro fs
  induction fs with
  | nil => rfl
  | cons en rest ih =>
    obtain ⟨k, v⟩ := en
    by_cases hk : k = q
    · subst hk
      simp [List.filter, h v, lookupFS]
    · cases hf : f (k, v) <;> simp [List.filter, hf, lookupFS, hk, ih]

theorem lookupFS_filter_keyFalse {f : Path × Entry → Bool} {q : Path}
    (h : ∀ e : Entry, f (q, e) = false) :
    ∀ fs : FS, lookupFS (fs.filter f) q = none := by
  intro fs
  induction fs with
  | nil => rfl
  | cons en rest ih =>
    obtain ⟨k, v⟩ := en
    by_cases hk : k = q
    · subst hk
      simp [List.filter, h v, ih]
    · cases hf : f (k, v) <;> simp [List.filter, hf, lookupFS, hk, ih]

theorem lookup_erase_ne {fs : FS} {p q : Path} (h : q ≠ p) :
    lookupFS (erasePath fs p) q = lookupFS fs q :=
  lookupFS_filter_keyTrue (fun _ => by simp [h]) fs

theorem lookup_erase_self {fs : FS} {p : Path} :
    lookupFS (erasePath fs p) p = none :=
  lookupFS_filter_keyFalse (fun _ => by simp) fs

theorem lookup_insert_self {fs : FS} {p : Path} {e : Entry} :
    lookupFS (insertPath fs p e) p = some e := by
  simp [insertPath, lookupFS]

theorem lookup_insert_ne {fs : FS} {p q : Path} {e : Entry} (h : q ≠ p) :
    lookupFS (insertPath fs p e) q = lookupFS fs q := by
  simp only [insertPath, lookupFS]
  rw [if_neg (fun hh : p = q => h hh.symm)]
  exact lookup_erase_ne h

theorem lookup_rmRec_other {fs : FS} {p q : Path} (h : q ≠ p)
    (h2 : underPath p q = false) :
    lookupFS (rmRec fs p) q = lookupFS fs q :=
  lookupFS_filter_keyTrue (fun _ => by simp [h, h2]) fs

theorem lookup_rmRec_self {fs : FS} {p : Path} :
    lookupFS (rmRec fs p) p = none :=
  lookupFS_filter_keyFalse (fun _ => by simp) fs

theorem resolve_of_lookup_none {fs : FS} {q : Path} (fuel : Nat)
    (h : lookupFS fs q = none) : resolveEntry fuel fs q = none := by
  cases fuel with
  | zero => rfl
  | succ n => simp [resolveEntry, h]

theorem resolve_of_lookup_nonsym {fs : FS} {q : Path} {e : Entry} (fuel : Nat)
    (h : lookupFS fs q = some e) (he : isSymEntry e = false) (hf : fuel ≠ 0) :
    resolveEntry fuel fs q = some e := by
  cases fuel with
  | zero => exact absurd rfl hf
  | succ n =>
    cases e with
    | symlinkE t => simp [isSymEntry] at he
    | fileE c => simp [resolveEntry, h]
    | dirE => simp [resolveEntry, h]

theorem existsSync_of_lookup_none {fs : FS} {q : Path}
    (h : lookupFS fs q = none) : existsSyncB fs q = false := by
  simp [existsSyncB, resolve_of_lookup_none 40 h]

theorem existsSync_of_lookup_nonsym {fs : FS} {q : Path} {e : Entry}
    (h : lookupFS fs q = some e) (he : isSymEntry e = false) :
    existsSyncB fs q = true := by
  simp [existsSyncB, resolve_of_lookup_nonsym 40 h he (by simp)]

theorem lookup_mem {fs : FS} {q : Path} {e : Entry}
    (h : lookupFS fs q = some e) : (q, e) ∈ fs := by
  induction fs with
  | nil => simp [lookupFS] at h
  | cons en rest ih =>
    obtain ⟨k, v⟩ := en
    simp only [lookupFS] at h
    by_cases hk : k = q
    · subst hk
      rw [if_pos rfl] at h
      cases h
      exact List.mem_cons_self _ _
    · rw [if_neg hk] at h
      exact List.mem_cons_of_mem _ (ih h)

theorem wf_entry_of_lookup {p : String} {fs : FS} {q : Path} {e : Entry}
    (hwf : wfFS p fs = true) (h : lookupFS fs q = some e) :
    entryWF p (q, e) = true := by
  have hmem := lookup_mem h
  simp only [wfFS, List.all_eq_true] at hwf
  exact hwf _ hmem

theorem wf_shared_nonsym {p : String} {fs : FS} {n : String} {e : Entry}
    (hwf : wfFS p fs = true) (h : lookupFS fs (Path.shared n) = some e) :
    isSymEntry e = false := by
  have := wf_entry_of_lookup hwf h
  cases e <;> simp_all [entryWF, isSymEntry]

theorem wf_item_sym {p : String} {fs : FS} {n : String} {t : Path}
    (hwf : wfFS p fs = true)
    (h : lookupFS fs (Path.profileItem p n) = some (.symlinkE t)) :
    t = Path.shared n := by
  have := wf_entry_of_lookup hwf h
  simpa [entryWF] using this

theorem wfFS_filter {p : String} {fs : FS} (f : Path × Entry → Bool)
    (hwf : wfFS p fs = true) : wfFS p (fs.filter f) = true := by
  simp only [wfFS, List.all_eq_true] at hwf ⊢
  intro en hen
  exact hwf en (List.mem_of_mem_filter hen)

theorem wfFS_insert {p : String} {fs : FS} {q : Path} {e : Entry}
    (hwf : wfFS p fs = true) (he : entryWF p (q, e) = true) :
    wfFS p (insertPath fs q e) = true := by
  simp only [insertPath, wfFS, List.all_cons, he, Bool.true_and]
  exact wfFS_filter _ hwf

theorem resolve_sym_succ {fs : FS} {q t : Path} (fuel : Nat)
    (h : lookupFS fs q = some (.symlinkE t)) :
    resolveEntry (fuel + 1) fs q = resolveEntry fuel fs t := by
  simp only [resolveEntry, h]

theorem existsSync_sym_step {fs : FS} {q t : Path} {e : Entry}
    (h : lookupFS fs q = some (.symlinkE t)) (ht : lookupFS fs t = some e)
    (he : isSymEntry e = false) : existsSyncB fs q = true := by
  show (resolveEntry (39 + 1) fs q).isSome = true
  rw [resolve_sym_succ 39 h, resolve_of_lookup_nonsym 39 ht he (by simp)]
  rfl

theorem existsSync_shared_lookup {p : String} {fs : FS} {n : String}
    (hwf : wfFS p fs = true) (hx : existsSyncB fs (Path.shared n) = true) :
    ∃ e, lookupFS fs (Path.shared n) = some e ∧ isSymEntry e = false := by
  cases hl : lookupFS fs (Path.shared n) with
  | none => rw [existsSync_of_lookup_none hl] at hx; cases hx
  | some e => exact ⟨e, rfl, wf_shared_nonsym hwf hl⟩

theorem underPath_profileItem (a b : String) (q : Path) :
    underPath (Path.profileItem a b) q = false := by
  cases q <;> rfl

/-- The step for one item never modifies any path other than the
target path of that item. -/
theorem linkStep_frame {p : String} {it : SharedItem} {fs : FS} {q : Path}
    (hq : q ≠ Path.profileItem p it.name) :
    lookupFS (linkStep p it fs).2 q = lookupFS fs q := by
  cases hsrc : existsSyncB fs (Path.shared it.name) with
  | false =>
    simp only [linkStep, hsrc]
    cases hreq : it.required <;> rfl
  | true =>
    cases htgt : existsSyncB fs (Path.profileItem p it.name) with
    | true =>
      cases hsym : isSymlinkRaw fs (Path.profileItem p it.name) with
      | true => simp only [linkStep, hsrc, htgt, hsym]
      | false =>
        simp only [linkStep, hsrc, htgt, hsym, symlinkFS, lookup_rmRec_self]
        rw [lookup_insert_ne hq]
        exact lookup_rmRec_other hq (underPath_profileItem _ _ _)
    | false =>
      cases hsym : isSymlinkRaw fs (Path.profileItem p it.name) <;>
        · simp only [linkStep, hsrc, htgt, hsym, symlinkFS]
          cases hl : lookupFS fs (Path.profileItem p it.name) with
          | some e => rfl
          | none => exact lookup_insert_ne hq

/-- The step preserves well-formedness: the only entry it ever writes
is a link from the item target to the item source. -/
theorem linkStep_wf {p : String} {it : SharedItem} {fs : FS}
    (hwf : wfFS p fs = true) : wfFS p (linkStep p it fs).2 = true := by
  have hins : ∀ gs : FS, wfFS p gs = true →
      wfFS p (insertPath gs (Path.profileItem p it.name)
        (.symlinkE (Path.shared it.name))) = true := by
    intro gs hgs
    refine wfFS_insert hgs ?_
    simp [entryWF]
  cases hsrc : existsSyncB fs (Path.shared it.name) with
  | false =>
    simp only [linkStep, hsrc]
    cases hreq : it.required <;> simpa using hwf
  | true =>
    cases htgt : existsSyncB fs (Path.profileItem p it.name) with
    | true =>
      cases hsym : isSymlinkRaw fs (Path.profileItem p it.name) with
      | true => simpa [linkStep, hsrc, htgt, hsym] using hwf
      | false =>
        simp only [linkStep, hsrc, htgt, hsym, symlinkFS, lookup_rmRec_self]
        exact hins _ (wfFS_filter _ hwf)
    | false =>
      cases hsym : isSymlinkRaw fs (Path.profileItem p it.name) <;>
        · simp only [linkStep, hsrc, htgt, hsym, symlinkFS]
          cases hl : lookupFS fs (Path.profileItem p it.name) with
          | some e => simpa using hwf
          | none => exact hins _ hwf

/-- If the step succeeds, the item is settled in the resulting
filesystem. -/
theorem linkStep_ok_settled {p : String} {it : SharedItem} {fs : FS}
    {r : Option SymlinkTarget} {fs1 : FS}
    (hwf : wfFS p fs = true) (h : linkStep p it fs = (.ok r, fs1)) :
    settled p it fs1 := by
  cases hsrc : existsSyncB fs (Path.shared it.name) with
  | false =>
    simp only [linkStep, hsrc] at h
    cases hreq : it.required with
    | true => rw [hreq] at h; cases h
    | false =>
      rw [hreq] at h
      injection h with h1 h2
      subst h2
      left
      refine ⟨?_, hreq⟩
      cases hl : lookupFS fs (Path.shared it.name) with
      | none => rfl
      | some e =>
        have := existsSync_of_lookup_nonsym hl (wf_shared_nonsym hwf hl)
        rw [this] at hsrc
        cases hsrc
  | true =>
    obtain ⟨e, hl, hns⟩ := existsSync_shared_lookup hwf hsrc
    cases htgt : existsSyncB fs (Path.profileItem p it.name) with
    | true =>
      cases hsym : isSymlinkRaw fs (Path.profileItem p it.name) with
      | true =>
        simp only [linkStep, hsrc, htgt, hsym] at h
        injection h with h1 h2
        subst h2
        right
        refine ⟨e, hl, hns, ?_⟩
        cases hlt : lookupFS fs (Path.profileItem p it.name) with
        | none => simp [isSymlinkRaw, hlt] at hsym
        | some e2 =>
          cases e2 with
          | symlinkE t =>
            have ht := wf_item_sym hwf hlt
            subst ht
            rfl
          | fileE c => simp [isSymlinkRaw, hlt] at hsym
          | dirE => simp [isSymlinkRaw, hlt] at hsym
      | false =>
        simp only [linkStep, hsrc, htgt, hsym, symlinkFS, lookup_rmRec_self] at h
        injection h with h1 h2
        subst h2
        right
        refine ⟨e, ?_, hns, lookup_insert_self⟩
        rw [lookup_insert_ne (by simp), lookup_rmRec_other (by simp)
          (underPath_profileItem _ _ _)]
        exact hl
    | false =>
      cases hsym : isSymlinkRaw fs (Path.profileItem p it.name) <;>
        · simp only [linkStep, hsrc, htgt, hsym, symlinkFS] at h
          cases hlt : lookupFS fs (Path.profileItem p it.name) with
          | some e2 => rw [hlt] at h; cases h
          | none =>
            rw [hlt] at h
            injection h with h1 h2
            subst h2
            right
            refine ⟨e, ?_, hns, lookup_insert_self⟩
            rw [lookup_insert_ne (by simp)]
            exact hl

/-- On a filesystem in which the item is already settled, the step
does nothing and reports nothing. -/
theorem settled_step {p : String} {it : SharedItem} {fs : FS}
    (h : settled p it fs) : linkStep p it fs = (.ok none, fs) := by
  cases h with
  | inl h =>
    obtain ⟨hl, hreq⟩ := h
    simp [linkStep, existsSync_of_lookup_none hl, hreq]
  | inr h =>
    obtain ⟨e, hl, hns, hlt⟩ := h
    have hsrc : existsSyncB fs (Path.shared it.name) = true :=
      existsSync_of_lookup_nonsym hl hns
    have htgt : existsSyncB fs (Path.profileItem p it.name) = true :=
      existsSync_sym_step hlt hl hns
    have hsym : isSymlinkRaw fs (Path.profileItem p it.name) = true := by
      simp [isSymlinkRaw, hlt]
    simp only [linkStep, hsrc, htgt, hsym]

theorem settled_of_lookup_eq {p : String} {it : SharedItem} {fs fs2 : FS}
    (h : settled p it fs)
    (h1 : lookupFS fs2 (Path.shared it.name) = lookupFS fs (Path.shared it.name))
    (h2 : lookupFS fs2 (Path.profileItem p it.name)
        = lookupFS fs (Path.profileItem p it.name)) :
    settled p it fs2 := by
  cases h with
  | inl h => exact Or.inl ⟨h1.trans h.1, h.2⟩
  | inr h =>
    obtain ⟨e, he, hns, hlt⟩ := h
    exact Or.inr ⟨e, h1.trans he, hns, h2.trans hlt⟩

/-- The whole loop never modifies any path that is not the target
path of one of its items. -/
theorem go_frame {p : String} :
    ∀ (items : List SharedItem) (fs : FS) (q : Path),
      (∀ it ∈ items, q ≠ Path.profileItem p it.name) →
      lookupFS (createSymlinksGo p items fs).2 q = lookupFS fs q := by
  intro items
  induction items with
  | nil => intro fs q _; rfl
  | cons it rest ih =>
    intro fs q hq
    have hqit : q ≠ Path.profileItem p it.name := hq it (List.mem_cons_self it rest)
    have hqrest : ∀ i ∈ rest, q ≠ Path.profileItem p i.name :=
      fun i hi => hq i (List.mem_cons_of_mem it hi)
    have hstepf : lookupFS (linkStep p it fs).2 q = lookupFS fs q := linkStep_frame hqit
    cases hstep : linkStep p it fs with
    | mk r fs1 =>
      rw [hstep] at hstepf
      cases r with
      | error e => simpa [createSymlinksGo, hstep] using hstepf
      | ok r2 =>
        cases r2 with
        | none =>
          simp only [createSymlinksGo, hstep]
          rw [ih fs1 q hqrest]
          exact hstepf
        | some d =>
          simp only [createSymlinksGo, hstep]
          have hrec := ih fs1 q hqrest
          cases hrest : createSymlinksGo p rest fs1 with
          | mk res fsF =>
            rw [hrest] at hrec
            cases res with
            | error e => simpa using hrec.trans hstepf
            | ok ds => simpa using hrec.trans hstepf

/-- A successful first run leaves every item settled in the final
filesystem, which also remains well formed. -/
theorem go_ok_main {p : String} :
    ∀ (items : List SharedItem) (fs : FS),
      wfFS p fs = true → (items.map SharedItem.name).Nodup →
      ∀ (l : List SymlinkTarget) (fs₁ : FS),
        createSymlinksGo p items fs = (.ok l, fs₁) →
        wfFS p fs₁ = true ∧ ∀ it ∈ items, settled p it fs₁ := by
  intro items
  induction items with
  | nil =>
    intro fs hwf _ l fs₁ hrun
    simp only [createSymlinksGo] at hrun
    injection hrun with h1 h2
    subst h2
    exact ⟨hwf, by simp⟩
  | cons it rest ih =>
    intro fs hwf hnd l fs₁ hrun
    rw [List.map_cons, List.nodup_cons] at hnd
    obtain ⟨hnotmem, hndrest⟩ := hnd
    have hqrest : ∀ i ∈ rest, Path.profileItem p it.name ≠ Path.profileItem p i.name := by
      intro i hi hcontra
      injection hcontra with hp hn
      exact hnotmem (hn ▸ List.mem_map_of_mem SharedItem.name hi)
    have hshared_ne : ∀ i ∈ rest, Path.shared it.name ≠ Path.profileItem p i.name := by
      intro i _ hcontra
      cases hcontra
    cases hstep : linkStep p it fs with
    | mk r fs1 =>
      have hwf1 : wfFS p fs1 = true := by
        have := @linkStep_wf p it fs hwf
        rw [hstep] at this
        exact this
      cases r with
      | error e => simp [createSymlinksGo, hstep] at hrun
      | ok r2 =>
        have hs1 : settled p it fs1 := linkStep_ok_settled hwf hstep
        cases r2 with
        | none =>
          simp only [createSymlinksGo, hstep] at hrun
          obtain ⟨hwfF, hsetF⟩ := ih fs1 hwf1 hndrest l fs₁ hrun
          refine ⟨hwfF, ?_⟩
          intro i hi
          rcases List.mem_cons.mp hi with rfl | hi2
          · have hfr1 := go_frame rest fs1 (Path.shared i.name) (hshared_ne)
            have hfr2 := go_frame rest fs1 (Path.profileItem p i.name) (hqrest)
            rw [hrun] at hfr1 hfr2
            exact settled_of_lookup_eq hs1 hfr1 hfr2
          · exact hsetF i hi2
        | some d =>
          simp only [createSymlinksGo, hstep] at hrun
          cases hrest : createSymlinksGo p rest fs1 with
          | mk res fsF =>
            rw [hrest] at hrun
            cases res with
            | error e => simp at hrun
            | ok ds =>
              simp only at hrun
              injection hrun with h1 h2
              subst h2
              obtain ⟨hwfF, hsetF⟩ := ih fs1 hwf1 hndrest ds fsF hrest
              refine ⟨hwfF, ?_⟩
              intro i hi
              rcases List.mem_cons.mp hi with rfl | hi2
              · have hfr1 := go_frame rest fs1 (Path.shared i.name) (hshared_ne)
                have hfr2 := go_frame rest fs1 (Path.profileItem p i.name) (hqrest)
                rw [hrest] at hfr1 hfr2
                exact settled_of_lookup_eq hs1 hfr1 hfr2
              · exact hsetF i hi2

/-- A run over a filesystem in which every item is settled succeeds,
creates nothing, and changes nothing. -/
theorem go_settled_run {p : String} :
    ∀ (items : List SharedItem) (fs : FS),
      (∀ it ∈ items, settled p it fs) →
      createSymlinksGo p items fs = (.ok [], fs) := by
  intro items
  induction items with
  | nil => intro fs _; rfl
  | cons it rest ih =>
    intro fs hs
    have h1 : linkStep p it fs = (.ok none, fs) :=
      settled_step (hs it (List.mem_cons_self it rest))
    simp only [createSymlinksGo, h1]
    exact ih fs (fun i hi => hs i (List.mem_cons_of_mem it hi))

/-- Claim C3: if createSymlinks for a profile has already succeeded,
running it again does not error, leaves the on-disk link set exactly
as it was (each target is already a valid link and is skipped), and
returns no newly created descriptors (the returned list holds the
links actually created by the call, so it is empty on the rerun).
The well-formedness hypothesis says that the shared-root entries are
real files or directories and that any pre-existing link at a profile
item path points at its shared counterpart. -/
theorem claim_C3 (p : String) (fs : FS) (l : List SymlinkTarget) (fs₁ : FS)
    (hwf : wfFS p fs = true)
    (hrun : createSymlinks p fs = (.ok l, fs₁)) :
    createSymlinks p fs₁ = (.ok [], fs₁) := by
  have hnd : (sharedItems.map SharedItem.name).Nodup := by decide
  obtain ⟨hwf1, hset⟩ := go_ok_main sharedItems fs hwf hnd l fs₁ hrun
  exact go_settled_run sharedItems fs₁ hset

/-- Witness for claim C3, applying it to a concrete run that created
the one required link. -/
theorem claim_C3_witness : createSymlinks "work" fsW1 = (Except.ok [], fsW1) :=
  claim_C3 "work" fsW0 [dW] fsW1 (by decide) (by rfl)

/-- The unlink loop never modifies any path that is not the target
path of one of its items. -/
theorem removeGo_frame {p : String} :
    ∀ (items : List SharedItem) (fs : FS) (q : Path),
      (∀ it ∈ items, q ≠ Path.profileItem p it.name) →
      lookupFS (removeSymlinksGo p items fs) q = lookupFS fs q := by
  intro items
  induction items with
  | nil => intro fs q _; rfl
  | cons it rest ih =>
    intro fs q hq
    have hqit : q ≠ Path.profileItem p it.name := hq it (List.mem_cons_self it rest)
    have hqrest : ∀ i ∈ rest, q ≠ Path.profileItem p i.name :=
      fun i hi => hq i (List.mem_cons_of_mem it hi)
    simp only [removeSymlinksGo]
    by_cases hcond : (existsSyncB fs (Path.profileItem p it.name)
        && isSymlinkRaw fs (Path.profileItem p it.name)) = true
    · rw [if_pos hcond, ih _ q hqrest]
      exact lookup_erase_ne hqit
    · rw [if_neg hcond, ih _ q hqrest]

/-- The unlink loop leaves a non-link entry at a target path exactly
where it was. -/
theorem removeGo_keeps_nonlink {p n : String} {e : Entry} :
    ∀ (items : List SharedItem) (fs : FS),
      lookupFS fs (Path.profileItem p n) = some e → isSymEntry e = false →
      lookupFS (removeSymlinksGo p items fs) (Path.profileItem p n) = some e := by
  intro items
  induction items with
  | nil => intro fs h _; exact h
  | cons it rest ih =>
    intro fs h hns
    simp only [removeSymlinksGo]
    by_cases hit : Path.profileItem p it.name = Path.profileItem p n
    · have hsym : isSymlinkRaw fs (Path.profileItem p it.name) = false := by
        rw [hit]
        cases e <;> simp_all [isSymlinkRaw, isSymEntry]
      rw [hsym, Bool.and_false, if_neg (by simp)]
      exact ih fs h hns
    · by_cases hcond : (existsSyncB fs (Path.profileItem p it.name)
          && isSymlinkRaw fs (Path.profileItem p it.name)) = true
      · rw [if_pos hcond]
        refine ih _ ?_ hns
        rw [lookup_erase_ne (fun hh => hit hh.symm)]
        exact h
      · rw [if_neg hcond]
        exact ih fs h hns

/-- Claim C4: removeSymlinks and removeProfile never delete, modify,
or recurse into any entry of the shared configuration root.  The
lookups of every shared entry and of the root directory itself are
unchanged by either operation (content included, so surviving files
stay byte-identical), and a non-link entry sitting at a link target
path is left untouched by removeSymlinks. -/
theorem claim_C4 (p n : String) (fs : FS) (s : RegistryState) :
    lookupFS (removeSymlinks p fs) (Path.shared n) = lookupFS fs (Path.shared n)
    ∧ lookupFS (removeSymlinks p fs) Path.mainConfig = lookupFS fs Path.mainConfig
    ∧ (∀ e : Entry, lookupFS fs (Path.profileItem p n) = some e →
        isSymEntry e = false →
        lookupFS (removeSymlinks p fs) (Path.profileItem p n) = some e)
    ∧ lookupFS (removeProfile p s).2.fs (Path.shared n) = lookupFS s.fs (Path.shared n)
    ∧ lookupFS (removeProfile p s).2.fs Path.mainConfig = lookupFS s.fs Path.mainConfig := by
  have hsh : ∀ i ∈ sharedItems, Path.shared n ≠ Path.profileItem p i.name := by
    intro i _ hcontra
    cases hcontra
  have hmc : ∀ i ∈ sharedItems, Path.mainConfig ≠ Path.profileItem p i.name := by
    intro i _ hcontra
    cases hcontra
  refine ⟨removeGo_frame sharedItems fs _ hsh, removeGo_frame sharedItems fs _ hmc,
    fun e he hns => removeGo_keeps_nonlink sharedItems fs he hns, ?_⟩
  have hrp : ∀ q : Path, q ≠ Path.profileDir p → underPath (Path.profileDir p) q = false →
      q ≠ Path.credFile p →
      (∀ i ∈ sharedItems, q ≠ Path.profileItem p i.name) →
      lookupFS (removeProfile p s).2.fs q = lookupFS s.fs q := by
    intro q hq1 hq2 hq3 hq4
    simp only [removeProfile]
    by_cases hcond : existsSyncB s.fs (Path.profileDir p) = true
    · simp only [hcond, Bool.not_true, Bool.false_eq_true, if_false]
      by_cases hcred : existsSyncB (rmRec (removeSymlinks p s.fs) (Path.profileDir p))
          (Path.credFile p) = true
      · rw [if_pos hcred, lookup_erase_ne hq3, lookup_rmRec_other hq1 hq2]
        exact removeGo_frame sharedItems s.fs q hq4
      · rw [if_neg hcred, lookup_rmRec_other hq1 hq2]
        exact removeGo_frame sharedItems s.fs q hq4
    · simp only [Bool.not_eq_true] at hcond
      simp only [hcond, Bool.not_false, if_true]
  constructor
  · exact hrp (Path.shared n) (by simp) (by rfl) (by simp) hsh
  · exact hrp Path.mainConfig (by simp) (by rfl) (by simp) hmc

/-- Witness for claim C4, applying it to a concrete profile directory
holding a real local file at a link target path: removeSymlinks
leaves it in place. -/
theorem claim_C4_witness :
    lookupFS (removeSymlinks "work" fsC4) (Path.profileItem "work" "settings.json")
      = some (Entry.fileE "local") :=
  (claim_C4 "work" "settings.json" fsC4 sC4).2.2.1 (Entry.fileE "local") (by rfl) (by rfl)

theorem symlinkStatusFor_name (p : String) (fs : FS) (it : SharedItem) :
    (symlinkStatusFor p fs it).name = it.name := by
  simp only [symlinkStatusFor]
  split_ifs <;> rfl

/-- Claim C10: when the entry at an item target path is a broken
symbolic link (the raw entry is a link but the path does not resolve),
getSymlinkStatus reports that item as absent: exists, isSymlink and
targetExists are all false, because existence is decided by the
link-following existsSync check. -/
theorem claim_C10 (p : String) (fs : FS) (st : LinkStatus)
    (hmem : st ∈ getSymlinkStatus p fs)
    (hsym : isSymlinkRaw fs (Path.profileItem p st.name) = true)
    (hex : existsSyncB fs (Path.profileItem p st.name) = false) :
    st.existsFlag = false ∧ st.isSymlink = false ∧ st.targetExists = false := by
  obtain ⟨it, hit, rfl⟩ := List.mem_map.mp hmem
  rw [symlinkStatusFor_name] at hex
  simp [symlinkStatusFor, hex]

/-- Witness for claim C10, applying it to a concrete broken link. -/
theorem claim_C10_witness :
    stC10.existsFlag = false ∧ stC10.isSymlink = false ∧ stC10.targetExists = false :=
  claim_C10 "work" fsC10 stC10 (by decide) (by rfl) (by rfl)

theorem lookup_mkdirp_ne {fs : FS} {p q : Path} (h : q ≠ p) :
    lookupFS (mkdirp fs p) q = lookupFS fs q := by
  simp only [mkdirp]
  cases hl : lookupFS fs p with
  | none => exact lookup_insert_ne h
  | some e => rfl

/-- Claim C1: when the shared configuration root exists but holds no
settings.json (the only required shared item), createProfile fails
with the missing-required-shared-resource error coming out of the
link creation, and the metadata document is left untouched, so no
entry for the identifier is added.  The identifier is assumed valid
and fresh, and the shared root present, so that the earlier
precondition checks do not fire first. -/
theorem claim_C1 (name : String) (now : Nat) (s : RegistryState)
    (hvalid : isValidProfileName name = true)
    (hdir : existsSyncB s.fs (Path.profileDir name) = false)
    (hmain : existsSyncB s.fs Path.mainConfig = true)
    (hshared : lookupFS s.fs (Path.shared "settings.json") = none) :
    (createProfile name now s).1
      = .error (.linkFailed (.requiredMissing (Path.shared "settings.json")))
    ∧ (createProfile name now s).2.configDoc = s.configDoc := by
  have hsh1 : lookupFS (mkdirp s.fs (Path.profileDir name))
      (Path.shared "settings.json") = none := by
    rw [lookup_mkdirp_ne (by simp)]
    exact hshared
  have hex1 : existsSyncB (mkdirp s.fs (Path.profileDir name))
      (Path.shared "settings.json") = false :=
    existsSync_of_lookup_none hsh1
  have hstep : linkStep name ⟨"settings.json", ItemType.file, true⟩
      (mkdirp s.fs (Path.profileDir name))
      = (.error (.requiredMissing (Path.shared "settings.json")),
         mkdirp s.fs (Path.profileDir name)) := by
    simp only [linkStep, hex1]
    simp
  have hgo : createSymlinks name (mkdirp s.fs (Path.profileDir name))
      = (.error (.requiredMissing (Path.shared "settings.json")),
         mkdirp s.fs (Path.profileDir name)) := by
    simp only [createSymlinks, sharedItems, createSymlinksGo, hstep]
  simp [createProfile, hvalid, hdir, hmain, hgo]

/-- Witness for claim C1, applying it to a concrete state with a bare
shared root. -/
theorem claim_C1_witness :
    (createProfile "work" 0 sC1).1
      = Except.error (CreateError.linkFailed
          (LinkError.requiredMissing (Path.shared "settings.json")))
    ∧ (createProfile "work" 0 sC1).2.configDoc = sC1.configDoc :=
  claim_C1 "work" 0 sC1 (by decide) (by rfl) (by rfl) (by rfl)

/-- Claim C2: a registered profile whose private directory has been
deleted out-of-band is omitted by listProfiles, while the metadata
document keeps its entry (the function writes nothing: the state it
returns is the state it was given), and the returned profiles are
ordered newest creation timestamp first. -/
theorem claim_C2 (s : RegistryState) (id : String) (md : ProfileMetadata)
    (hreg : (id, md) ∈ (loadProfilesConfig s).profiles)
    (hgone : existsSyncB s.fs (Path.profileDir id) = false) :
    (listProfiles s).2 = s
    ∧ id ∉ (listProfiles s).1.map Profile.name
    ∧ (id, md) ∈ (loadProfilesConfig (listProfiles s).2).profiles
    ∧ List.Sorted newestFirst (listProfiles s).1 := by
  refine ⟨rfl, ?_, hreg, ?_⟩
  · intro hmem
    rw [List.mem_map] at hmem
    obtain ⟨prof, hprof, hname⟩ := hmem
    simp only [listProfiles] at hprof
    have hprof2 := (List.perm_insertionSort newestFirst _).mem_iff.mp hprof
    rw [List.mem_filterMap] at hprof2
    obtain ⟨en, hen, hif⟩ := hprof2
    by_cases hex : existsSyncB s.fs (Path.profileDir en.1) = true
    · rw [if_pos hex] at hif
      injection hif with hif2
      rw [← hif2] at hname
      simp only [mkProfileView] at hname
      rw [hname] at hex
      rw [hgone] at hex
      cases hex
    · rw [if_neg hex] at hif
      cases hif
  · haveI : IsTotal Profile newestFirst :=
      ⟨fun a b => Nat.le_total b.createdAt a.createdAt⟩
    haveI : IsTrans Profile newestFirst :=
      ⟨fun a b c hab hbc => Nat.le_trans hbc hab⟩
    simp only [listProfiles]
    exact List.sorted_insertionSort newestFirst _

/-- Witness for claim C2, applying it to a concrete two-profile state
with one vanished directory. -/
theorem claim_C2_witness :
    (listProfiles sC2).2 = sC2
    ∧ "ghost" ∉ (listProfiles sC2).1.map Profile.name
    ∧ ("ghost", (⟨"ghost", 3, "ghost"⟩ : ProfileMetadata))
        ∈ (loadProfilesConfig (listProfiles sC2).2).profiles
    ∧ List.Sorted newestFirst (listProfiles sC2).1 :=
  claim_C2 sC2 "ghost" ⟨"ghost", 3, "ghost"⟩ (by decide) (by rfl)

/-- Counterexample to claim C9 as stated: with an orphaned
credentials file already on disk for a non-existing identifier,
createProfile succeeds (its AlreadyExists precondition checks only
the private directory) and the returned Profile view has its
authenticated flag true, not false. -/
theorem claim_C9_cex :
    (createProfile "work" 5 sC9).1 = Except.ok profC9
    ∧ profC9.isAuthenticated = true :=
  ⟨by rfl, by rfl⟩

/-- Claim C9 as amended: when createProfile succeeds, the returned
authenticated flag is computed from the existence of the per-profile
credentials file in the resulting filesystem, and it is false
whenever no credentials file for the identifier existed beforehand
(creation never touches that path); a pre-existing orphaned
credentials file instead yields true, since the AlreadyExists
precondition checks only the private directory. -/
theorem claim_C9 (name : String) (now : Nat) (s : RegistryState)
    (prof : Profile) (s2 : RegistryState)
    (hok : createProfile name now s = (.ok prof, s2)) :
    prof.isAuthenticated = existsSyncB s2.fs (Path.credFile name)
    ∧ (lookupFS s.fs (Path.credFile name) = none → prof.isAuthenticated = false) := by
  cases hval : isValidProfileName name with
  | false => simp [createProfile, hval] at hok
  | true =>
    cases hdir : existsSyncB s.fs (Path.profileDir name) with
    | true => simp [createProfile, hval, hdir] at hok
    | false =>
      cases hmain : existsSyncB s.fs Path.mainConfig with
      | false => simp [createProfile, hval, hdir, hmain] at hok
      | true =>
        cases hcs : createSymlinks name (mkdirp s.fs (Path.profileDir name)) with
        | mk res fs2 =>
          cases res with
          | error e => simp [createProfile, hval, hdir, hmain, hcs] at hok
          | ok lst =>
            have hfr : lookupFS (createSymlinks name
                  (mkdirp s.fs (Path.profileDir name))).2 (Path.credFile name)
                = lookupFS (mkdirp s.fs (Path.profileDir name)) (Path.credFile name) :=
              go_frame sharedItems _ _ (fun i _ => by simp)
            rw [hcs] at hfr
            simp only [createProfile, hval, hdir, hmain, hcs, Bool.not_true,
              Bool.false_eq_true, if_false, Bool.not_false, if_true] at hok
            injection hok with hA hB
            injection hA with hA2
            subst hB
            subst hA2
            refine ⟨rfl, fun hnone => ?_⟩
            show existsSyncB fs2 (Path.credFile name) = false
            apply existsSync_of_lookup_none
            rw [hfr, lookup_mkdirp_ne (by simp)]
            exact hnone

/-- Witness for the amended claim C9, applying it to a concrete
successful creation with no pre-existing credentials file. -/
theorem claim_C9_witness : profC9w.isAuthenticated = false :=
  (claim_C9 "work" 7 sC9w profC9w s2C9w (by rfl)).2 (by rfl)

theorem startsLower_of_ok {name : String} (h : profileNameOk name = true) :
    startsLower name = true := by
  have h2 : ∀ l : List Char,
      (match l with
       | [] => false
       | c :: rest => isLowerAlpha c && rest.all isNameChar) = true →
      (match l with
       | [] => false
       | c :: _ => isLowerAlpha c) = true := by
    intro l hh
    cases l with
    | nil => exact hh
    | cons c rest => exact (Bool.and_eq_true_iff.mp hh).1
  exact h2 name.data h

/-- Claim C5: getProfileNameError reports the first violated rule in
the fixed order empty, too long, pattern, reserved; the string Claude
gets the pattern (lowercase-start) message even though its lowering
is reserved; and the function returns none exactly when
isValidProfileName returns true. -/
theorem claim_C5 :
    (∀ name, getProfileNameError name = none ↔ isValidProfileName name = true)
    ∧ getProfileNameError "Claude" = some "Name must start with a lowercase letter"
    ∧ isReservedName "Claude" = true
    ∧ (∀ name, name.length = 0 →
        getProfileNameError name = some "Profile name is required")
    ∧ (∀ name : String, MAX_PROFILE_NAME_LENGTH < name.length →
        getProfileNameError name = some "Name must be 32 characters or less") := by
  refine ⟨?_, by decide, by decide, ?_, ?_⟩
  · intro name
    by_cases h1 : name.length = 0
    · simp [getProfileNameError, isValidProfileName, h1]
    · by_cases h2 : MAX_PROFILE_NAME_LENGTH < name.length
      · simp [getProfileNameError, isValidProfileName, h1, h2]
      · cases h3 : profileNameOk name with
        | true =>
          have h4 := startsLower_of_ok h3
          cases h5 : isReservedName name with
          | true => simp [getProfileNameError, isValidProfileName, h1, h2, h3, h4, h5]
          | false => simp [getProfileNameError, isValidProfileName, h1, h2, h3, h4, h5]
        | false =>
          cases h4 : startsLower name with
          | true => simp [getProfileNameError, isValidProfileName, h1, h2, h3, h4]
          | false => simp [getProfileNameError, isValidProfileName, h1, h2, h3, h4]
  · intro name h
    simp [getProfileNameError, h]
  · intro name h
    have h0 : ¬(name.length = 0) := by omega
    simp [getProfileNameError, h, h0]

/-- Witness for claim C5, applying its empty-name clause to the empty
string. -/
theorem claim_C5_witness :
    getProfileNameError "" = some "Profile name is required" :=
  claim_C5.2.2.2.1 "" rfl

/-- Counterexample to claim C6 as stated: a metadata file whose
content parses to the empty JSON object is returned as-is by the
store read, a document with no profiles mapping, not the fresh empty
document. -/
theorem claim_C6_cex :
    loadProfilesConfigJson (.parsed (.jobj [])) = .jobj []
    ∧ hasProfilesMapping (.jobj []) = false
    ∧ hasProfilesMapping (loadProfilesConfigJson (.parsed (.jobj []))) = false :=
  ⟨rfl, rfl, rfl⟩

/-- Claim C6 as amended: the read is total; a missing file, an
unparseable file, and a parse yielding a falsy value all produce the
fresh empty document (empty profiles mapping, version 1.0.0); but a
truthy parsed value is returned unchanged, even when it lacks a
profiles mapping, so every read yields either the fresh document or
the parsed content as-is. -/
theorem claim_C6 :
    loadProfilesConfigJson .missing = emptyMetadataDoc
    ∧ loadProfilesConfigJson .unparseable = emptyMetadataDoc
    ∧ (∀ v, truthyJson v = false → loadProfilesConfigJson (.parsed v) = emptyMetadataDoc)
    ∧ (∀ f, loadProfilesConfigJson f = emptyMetadataDoc
        ∨ ∃ v, f = .parsed v ∧ truthyJson v = true ∧ loadProfilesConfigJson f = v)
    ∧ hasProfilesMapping emptyMetadataDoc = true := by
  refine ⟨rfl, rfl, ?_, ?_, by rfl⟩
  · intro v hv
    simp [loadProfilesConfigJson, readJson, hv]
  · intro f
    cases f with
    | missing => exact Or.inl rfl
    | unparseable => exact Or.inl rfl
    | parsed v =>
      cases hv : truthyJson v with
      | false => exact Or.inl (by simp [loadProfilesConfigJson, readJson, hv])
      | true => exact Or.inr ⟨v, rfl, hv, by simp [loadProfilesConfigJson, readJson, hv]⟩

/-- Witness for the amended claim C6, applying its falsy-value clause
to a file whose content parses to null. -/
theorem claim_C6_witness :
    loadProfilesConfigJson (.parsed .jnull) = emptyMetadataDoc :=
  claim_C6.2.2.1 .jnull rfl

theorem dataAppend (a b : String) : (a ++ b).data = a.data ++ b.data := rfl

theorem infixOfL_trans {x y z : List Char} (h1 : InfixOfL x y) (h2 : InfixOfL y z) :
    InfixOfL x z := by
  obtain ⟨s, t, rfl⟩ := h1
  obtain ⟨u, v, rfl⟩ := h2
  exact ⟨u ++ s, t ++ v, by simp [List.append_assoc]⟩

theorem infixOfL_joinSep (sep : String) {a : String} :
    ∀ l : List String, a ∈ l → InfixOfL a.data (joinSep sep l).data := by
  intro l
  induction l with
  | nil => intro h; cases h
  | cons b bs ih =>
    intro hmem
    rcases List.mem_cons.mp hmem with rfl | hmem2
    · cases bs with
      | nil => exact ⟨[], [], by simp [joinSep]⟩
      | cons b2 bs2 =>
        exact ⟨[], (sep ++ joinSep sep (b2 :: bs2)).data,
          by simp [joinSep, dataAppend]⟩
    · cases bs with
      | nil => cases hmem2
      | cons b2 bs2 =>
        obtain ⟨s, t, heq⟩ := ih hmem2
        exact ⟨(b ++ sep).data ++ s, t,
          by simp [joinSep, dataAppend, heq, List.append_assoc]⟩

theorem appears_joinSep (sep : String) :
    ∀ (blocks : List String) (pre suf : List Char),
      appearsInOrderL (blocks.map String.data)
        (pre ++ (joinSep sep blocks).data ++ suf) := by
  intro blocks
  induction blocks with
  | nil => intro pre suf; simp [appearsInOrderL]
  | cons b bs ih =>
    intro pre suf
    cases bs with
    | nil =>
      simp only [joinSep, List.map, appearsInOrderL]
      exact ⟨pre, suf, rfl, trivial⟩
    | cons b2 bs2 =>
      simp only [joinSep, List.map, appearsInOrderL]
      refine ⟨pre, (sep ++ joinSep sep (b2 :: bs2)).data ++ suf, ?_, ?_⟩
      · simp [dataAppend, List.append_assoc]
      · exact ih sep.data suf

/-- Claim C7: regenerateAliasesFile is a pure function of the
identifier list (and the generation timestamp).  With the empty list
it deletes the artifact if present and writes nothing; with a
non-empty list it writes the rendered content regardless of the prior
artifact state, so no residue of previously present identifiers can
remain; the content carries the generation header, the invocation
block of every identifier in list order (the rendering emits exactly
one block per identifier by construction), and one listing block
enumerating every identifier. -/
theorem claim_C7 (shell : ShellType) (ts : String) :
    (∀ prior, regenerateAliasesFile shell ts [] prior = none)
    ∧ (∀ (names : List String) (p1 p2 : Option String), names ≠ [] →
        regenerateAliasesFile shell ts names p1
          = some (aliasesFileContent shell ts names)
        ∧ regenerateAliasesFile shell ts names p1
          = regenerateAliasesFile shell ts names p2)
    ∧ (∀ names : List String,
        appearsInOrderL (names.map (fun n => (generateProfileFunction shell n).data))
          (aliasesFileContent shell ts names).data)
    ∧ (∀ (names : List String) (n : String), n ∈ names →
        InfixOfL (echoLine n).data (aliasesFileContent shell ts names).data)
    ∧ (∀ names : List String,
        InfixOfL autoGenLine.data (aliasesFileContent shell ts names).data
        ∧ InfixOfL "cc-list".data (aliasesFileContent shell ts names).data) := by
  refine ⟨fun prior => rfl, ?_, ?_, ?_, ?_⟩
  · intro names p1 p2 hne
    have hlen : ¬(names.length = 0) := fun hh => hne (List.length_eq_zero.mp hh)
    constructor
    · rw [regenerateAliasesFile, if_neg hlen]
    · rw [regenerateAliasesFile, if_neg hlen, regenerateAliasesFile, if_neg hlen]
  · intro names
    have h := appears_joinSep "\n\n" (names.map (generateProfileFunction shell))
      (aliasesHeader shell ts).data
      (("\n" : String).data ++ (aliasesListBlock shell names).data
        ++ ("\n" : String).data)
    rw [List.map_map] at h
    have hc : (aliasesFileContent shell ts names).data
        = (aliasesHeader shell ts).data
          ++ (joinSep "\n\n" (names.map (generateProfileFunction shell))).data
          ++ (("\n" : String).data ++ (aliasesListBlock shell names).data
            ++ ("\n" : String).data) := by
      simp [aliasesFileContent, dataAppend, List.append_assoc]
    rw [hc]
    exact h
  · intro names n hmem
    have h1 : InfixOfL (echoLine n).data (joinSep "\n" (names.map echoLine)).data :=
      infixOfL_joinSep "\n" (names.map echoLine) (List.mem_map_of_mem echoLine hmem)
    have h2 : InfixOfL (joinSep "\n" (names.map echoLine)).data
        (aliasesListBlock shell names).data :=
      ⟨(listIntro1 shell ++ "cc-list" ++ listIntro2 shell).data,
       (listOutro shell).data,
       by simp [aliasesListBlock, dataAppend, List.append_assoc]⟩
    have h3 : InfixOfL (aliasesListBlock shell names).data
        (aliasesFileContent shell ts names).data :=
      ⟨(aliasesHeader shell ts).data
        ++ (joinSep "\n\n" (names.map (generateProfileFunction shell))).data
        ++ ("\n" : String).data, ("\n" : String).data,
       by simp [aliasesFileContent, dataAppend, List.append_assoc]⟩
    exact infixOfL_trans (infixOfL_trans h1 h2) h3
  · intro names
    have hh : InfixOfL autoGenLine.data (aliasesHeader shell ts).data :=
      ⟨(headerBang shell).data,
       ("\n" ++ regenNote ++ "\n# Generated: " ++ ts ++ "\n\n" : String).data,
       by simp [aliasesHeader, dataAppend, List.append_assoc]⟩
    have hhc : InfixOfL (aliasesHeader shell ts).data
        (aliasesFileContent shell ts names).data :=
      ⟨[], (joinSep "\n\n" (names.map (generateProfileFunction shell))).data
        ++ (("\n" : String).data ++ (aliasesListBlock shell names).data
          ++ ("\n" : String).data),
       by simp [aliasesFileContent, dataAppend, List.append_assoc]⟩
    have hl : InfixOfL ("cc-list" : String).data (aliasesListBlock shell names).data :=
      ⟨(listIntro1 shell).data,
       (listIntro2 shell ++ joinSep "\n" (names.map echoLine)
         ++ listOutro shell).data,
       by simp [aliasesListBlock, dataAppend, List.append_assoc]⟩
    have h3 : InfixOfL (aliasesListBlock shell names).data
        (aliasesFileContent shell ts names).data :=
      ⟨(aliasesHeader shell ts).data
        ++ (joinSep "\n\n" (names.map (generateProfileFunction shell))).data
        ++ ("\n" : String).data, ("\n" : String).data,
       by simp [aliasesFileContent, dataAppend, List.append_assoc]⟩
    exact ⟨infixOfL_trans hh hhc, infixOfL_trans hl h3⟩

/-- Witness for claim C7, applying it to a concrete regeneration with
two identifiers over a stale prior artifact. -/
theorem claim_C7_witness :
    regenerateAliasesFile ShellType.bash "T" ["work", "personal"] (some "old")
      = some (aliasesFileContent ShellType.bash "T" ["work", "personal"])
    ∧ InfixOfL (echoLine "personal").data
        (aliasesFileContent ShellType.bash "T" ["work", "personal"]).data :=
  ⟨((claim_C7 ShellType.bash "T").2.1 ["work", "personal"] (some "old") none
      (by simp)).1,
   (claim_C7 ShellType.bash "T").2.2.2.1 ["work", "personal"] "personal" (by simp)⟩

theorem trimEnd_prefixOf (s : String) : PrefixOfL (trimEndStr s).data s.data := by
  refine ⟨(s.data.reverse.takeWhile Char.isWhitespace).reverse, ?_⟩
  have h := List.takeWhile_append_dropWhile Char.isWhitespace s.data.reverse
  calc s.data = s.data.reverse.reverse := (List.reverse_reverse _).symm
    _ = (s.data.reverse.takeWhile Char.isWhitespace
          ++ s.data.reverse.dropWhile Char.isWhitespace).reverse := by rw [h]
    _ = (s.data.reverse.dropWhile Char.isWhitespace).reverse
          ++ (s.data.reverse.takeWhile Char.isWhitespace).reverse :=
      List.reverse_append _ _

theorem dataStartsWith_self_append : ∀ (a t : List Char), dataStartsWith a (a ++ t) = true := by
  intro a
  induction a with
  | nil => intro t; rfl
  | cons c cs ih => intro t; simp [dataStartsWith, ih]

theorem dataContains_append (n : List Char) :
    ∀ (s t : List Char), dataContains n (s ++ n ++ t) = true := by
  intro s
  induction s with
  | nil =>
    intro t
    cases n with
    | nil =>
      cases t with
      | nil => rfl
      | cons c r => simp [dataContains, dataStartsWith]
    | cons c r =>
      simp [dataContains, dataStartsWith, dataStartsWith_self_append]
  | cons c cs ih =>
    intro t
    simp only [List.cons_append, dataContains, Bool.or_eq_true]
    exact Or.inr (ih t)

/-- The non-fish branch of setupShellIntegration. -/
theorem setup_nonfish {shell : ShellType} (hsh : shell ≠ ShellType.fish)
    (rc : Option String) :
    setupShellIntegration shell rc
      = (if includesStr (rc.getD "") INTEGRATION_MARKER then rc
         else some (trimEndStr (rc.getD "") ++ "\n\n" ++ integrationLine ++ "\n")) := by
  cases shell with
  | fish => exact absurd rfl hsh
  | zsh => rfl
  | bash => rfl
  | unknown => rfl

/-- Counterexample to claim C8 as stated: with prior content x
followed by a trailing space and no marker, setupShellIntegration
acts, but its output does not have the previous file content as a
prefix: trimEnd rewrote the trailing whitespace. -/
theorem claim_C8_cex :
    setupShellIntegration ShellType.bash (some "x ")
      = some ("x" ++ "\n\n" ++ integrationLine ++ "\n")
    ∧ includesStr "x " INTEGRATION_MARKER = false
    ∧ dataStartsWith "x ".data ("x" ++ "\n\n" ++ integrationLine ++ "\n").data = false := by
  refine ⟨by decide, by decide, by decide⟩

/-- Claim C8 as amended: setupShellIntegration is a no-op for fish
and whenever the marker is already present; otherwise it writes the
prior content with its trailing whitespace removed, a blank separator
and the marked block, so the trimmed prior content (a prefix of the
original) is preserved as a prefix of the new content, and applying
the operation twice equals applying it once. -/
theorem claim_C8 :
    (∀ rc, setupShellIntegration ShellType.fish rc = rc)
    ∧ (∀ (shell : ShellType) (rc : Option String), shell ≠ ShellType.fish →
        (includesStr (rc.getD "") INTEGRATION_MARKER = true →
          setupShellIntegration shell rc = rc)
        ∧ (includesStr (rc.getD "") INTEGRATION_MARKER = false →
            setupShellIntegration shell rc
              = some (trimEndStr (rc.getD "") ++ "\n\n" ++ integrationLine ++ "\n")
            ∧ PrefixOfL (trimEndStr (rc.getD "")).data
                (trimEndStr (rc.getD "") ++ "\n\n" ++ integrationLine ++ "\n").data
            ∧ PrefixOfL (trimEndStr (rc.getD "")).data (rc.getD "").data)
        ∧ setupShellIntegration shell (setupShellIntegration shell rc)
            = setupShellIntegration shell rc) := by
  refine ⟨fun rc => rfl, ?_⟩
  intro shell rc hsh
  refine ⟨?_, ?_, ?_⟩
  · intro hinc
    rw [setup_nonfish hsh, if_pos hinc]
  · intro hninc
    have hncond : ¬(includesStr (rc.getD "") INTEGRATION_MARKER = true) := by
      simp [hninc]
    refine ⟨by rw [setup_nonfish hsh, if_neg hncond], ?_, trimEnd_prefixOf _⟩
    exact ⟨("\n\n" ++ integrationLine ++ "\n" : String).data,
      by simp [dataAppend, List.append_assoc]⟩
  · cases hinc : includesStr (rc.getD "") INTEGRATION_MARKER with
    | true =>
      have ha : setupShellIntegration shell rc = rc := by
        rw [setup_nonfish hsh, if_pos hinc]
      rw [ha]
      exact ha
    | false =>
      have hncond : ¬(includesStr (rc.getD "") INTEGRATION_MARKER = true) := by
        simp [hinc]
      have hb : setupShellIntegration shell rc
          = some (trimEndStr (rc.getD "") ++ "\n\n" ++ integrationLine ++ "\n") := by
        rw [setup_nonfish hsh, if_neg hncond]
      rw [hb, setup_nonfish hsh]
      have hmem : includesStr
          ((some (trimEndStr (rc.getD "") ++ "\n\n" ++ integrationLine ++ "\n")).getD "")
          INTEGRATION_MARKER = true := by
        show dataContains INTEGRATION_MARKER.data
          (trimEndStr (rc.getD "") ++ "\n\n" ++ integrationLine ++ "\n").data = true
        have heq : (trimEndStr (rc.getD "") ++ "\n\n" ++ integrationLine ++ "\n").data
            = ((trimEndStr (rc.getD "")).data ++ ("\n\n" : String).data)
              ++ INTEGRATION_MARKER.data
              ++ (("\n[ -f ~/.cc-profiles-aliases.sh ] && source ~/.cc-profiles-aliases.sh"
                   : String).data ++ ("\n" : String).data) := by
          simp [integrationLine, dataAppend, List.append_assoc]
        rw [heq]
        exact dataContains_append _ _ _
      rw [if_pos hmem]

/-- Witness for the amended claim C8, applying its marker-present
clause to a startup file that already carries the integration
block. -/
theorem claim_C8_witness :
    setupShellIntegration ShellType.bash (some ("ok\n" ++ integrationLine ++ "\n"))
      = some ("ok\n" ++ integrationLine ++ "\n") :=
  ((claim_C8.2 ShellType.bash (some ("ok\n" ++ integrationLine ++ "\n"))
      (by simp)).1) (by decide)

end CCProfiles
